import Mathlib

/-!
Verification of the active-member tracking and access-validation subsystem of
the constant-expression evaluator described in spec.md, checked against the
behavioral test suite `clang/test/AST/ByteCode/unions.cpp`.

The implementation itself is not part of the examined sources (only its
behavioral tests are), so every operation below is modelled from the spec
(sections 3, 4.2-4.6, 7) and then validated against the concrete scenarios
the test file pins down.
-/

namespace UnionModel

mutual

/-- Modelled from the spec: §3 type descriptors supplied by the type system.
`int` and `flt` are two distinct trivial-scalar types of equal size, `pad` is
an unnamed-bitfield placeholder (never a nameable member for initialization
purposes), `strct` and `union` are record kinds, `arr` is fixed-length array
storage given by the per-element type list. -/
inductive Ty where
  | int
  | flt
  | pad
  | strct (fs : Tys)
  | union (fs : Tys)
  | arr (es : Tys)
deriving DecidableEq, Repr

inductive Tys where
  | nil
  | cons (t : Ty) (ts : Tys)
deriving DecidableEq, Repr

end

mutual

/-- Modelled from the spec: §3 StorageCell/Record value tree. A scalar cell
carries a "has been written" flag and its value; a `union` cell carries the
tracker state `activeMember : Option Nat` of §3's Record. -/
inductive Cell where
  | scalar (w : Bool) (v : Int)
  | strct (fs : Cells)
  | union (act : Option Nat) (fs : Cells)
  | arr (es : Cells)
deriving DecidableEq, Repr

inductive Cells where
  | nil
  | cons (c : Cell) (cs : Cells)
deriving DecidableEq, Repr

end

/-- Modelled from the spec: §7 closed error taxonomy of the validator
(plus `InvalidPath`, marking a path that does not resolve in the tree at
all, which §4.1 assumes away for resolved paths). -/
inductive AccessError where
  | InactiveMemberAccess (requested : Nat) (activeMem : Option Nat)
  | UninitializedRead
  | DestroyInactiveMember
  | NotConstantFoldable
  | ExcessInitializer
  | NeverConstant
  | InvalidPath
deriving DecidableEq, Repr

def Tys.get? : Tys → Nat → Option Ty
  | .nil, _ => none
  | .cons t _, 0 => some t
  | .cons _ ts, n + 1 => ts.get? n

def Tys.take : Tys → Nat → Tys
  | .nil, _ => .nil
  | .cons _ _, 0 => .nil
  | .cons t ts, n + 1 => .cons t (ts.take n)

def Cells.get? : Cells → Nat → Option Cell
  | .nil, _ => none
  | .cons c _, 0 => some c
  | .cons _ cs, n + 1 => cs.get? n

def Cells.set : Cells → Nat → Cell → Cells
  | .nil, _, _ => .nil
  | .cons _ cs, 0, x => .cons x cs
  | .cons c cs, n + 1, x => .cons c (cs.set n x)

/-- List-literal helper for field-type lists. -/
def tysOf : List Ty → Tys
  | [] => .nil
  | t :: ts => .cons t (tysOf ts)

/-- List-literal helper for cell lists. -/
def cellsOf : List Cell → Cells
  | [] => .nil
  | c :: cs => .cons c (cellsOf cs)

/-- Child cell of an aggregate cell at a field/element index. -/
def childOf : Cell → Nat → Option Cell
  | .scalar _ _, _ => none
  | .strct fs, i => fs.get? i
  | .union _ fs, i => fs.get? i
  | .arr es, i => es.get? i

/-- Pure structural navigation along a resolved path, ignoring all
activation state (§4.1 `resolvePath` result consumption). -/
def navigate : Cell → List Nat → Option Cell
  | c, [] => some c
  | c, i :: p =>
    match childOf c i with
    | some c0 => navigate c0 p
    | none => none

/-- Active member of a union cell (§4.2 `activeOf`); `none` for non-unions. -/
def activeOf : Cell → Option Nat
  | .union act _ => act
  | _ => none

/-- True when the path resolves to a trivial-scalar cell, ignoring
activation state. -/
def resolvesToScalar : Cell → List Nat → Bool
  | .scalar _ _, [] => true
  | _, [] => false
  | c, i :: p =>
    match childOf c i with
    | some c0 => resolvesToScalar c0 p
    | none => false

mutual

/-- Modelled from the spec: §4.2 cascading deactivation — clearing the
active-member state of every union nested transitively within a superseded
branch, recursively at every depth. -/
def deactivateNested : Cell → Cell
  | .scalar w v => .scalar w v
  | .strct fs => .strct (deactivateNestedList fs)
  | .union _ fs => .union none (deactivateNestedList fs)
  | .arr es => .arr (deactivateNestedList es)

def deactivateNestedList : Cells → Cells
  | .nil => .nil
  | .cons c cs => .cons (deactivateNested c) (deactivateNestedList cs)

end

mutual

/-- Every union transitively inside the cell (the cell itself included)
has no active member. -/
def allInactive : Cell → Bool
  | .scalar _ _ => true
  | .strct fs => allInactiveList fs
  | .union act fs => act.isNone && allInactiveList fs
  | .arr es => allInactiveList es

def allInactiveList : Cells → Bool
  | .nil => true
  | .cons c cs => allInactive c && allInactiveList cs

end

/-- Modelled from the spec: §4.2 `activate(record, fieldId)` — if the field
is not already active, make it active and cascade-deactivate every union
nested inside the previously active branch. Returns the updated tracker
state and field cells. -/
def activate (act : Option Nat) (fs : Cells) (i : Nat) : Option Nat × Cells :=
  if act = some i then (act, fs)
  else
    match act with
    | some j =>
      (some i,
        match fs.get? j with
        | some cj => fs.set j (deactivateNested cj)
        | none => fs)
    | none => (some i, fs)

/-- Modelled from the spec: §4.3 `Read` validation — at each union ancestor
step require the step field to be the active member, reporting
`InactiveMemberAccess` with the requested field and the actually-active one
at the first failing step (outermost first); if all ancestor checks pass but
the scalar leaf was never written, report `UninitializedRead`; otherwise
return the stored value. -/
def readCell : Cell → List Nat → Except AccessError Int
  | .scalar w v, [] => if w then .ok v else .error .UninitializedRead
  | _, [] => .error .InvalidPath
  | .scalar _ _, _ :: _ => .error .InvalidPath
  | .strct fs, i :: p =>
    match fs.get? i with
    | some c => readCell c p
    | none => .error .InvalidPath
  | .arr es, i :: p =>
    match es.get? i with
    | some c => readCell c p
    | none => .error .InvalidPath
  | .union act fs, i :: p =>
    if act = some i then
      match fs.get? i with
      | some c => readCell c p
      | none => .error .InvalidPath
    else .error (.InactiveMemberAccess i act)

/-- Modelled from the spec: §4.3 `Call` validation — same union-ancestor
chain as `Read`, but with no leaf-initialization requirement. -/
def callCheck : Cell → List Nat → Except AccessError Unit
  | _, [] => .ok ()
  | .scalar _ _, _ :: _ => .error .InvalidPath
  | .strct fs, i :: p =>
    match fs.get? i with
    | some c => callCheck c p
    | none => .error .InvalidPath
  | .arr es, i :: p =>
    match es.get? i with
    | some c => callCheck c p
    | none => .error .InvalidPath
  | .union act fs, i :: p =>
    if act = some i then
      match fs.get? i with
      | some c => callCheck c p
      | none => .error .InvalidPath
    else .error (.InactiveMemberAccess i act)

/-- Modelled from the spec: §4.3 `Write` for a trivial-scalar target —
always succeeds, implicitly invoking `activate` at every union ancestor
along the path before storing the value. `none` only when the path does
not resolve to a scalar at all. -/
def writeCell : Cell → List Nat → Int → Option Cell
  | .scalar _ _, [], v => some (.scalar true v)
  | _, [], _ => none
  | .scalar _ _, _ :: _, _ => none
  | .strct fs, i :: p, v =>
    match fs.get? i with
    | some c =>
      match writeCell c p v with
      | some c0 => some (.strct (fs.set i c0))
      | none => none
    | none => none
  | .arr es, i :: p, v =>
    match es.get? i with
    | some c =>
      match writeCell c p v with
      | some c0 => some (.arr (es.set i c0))
      | none => none
    | none => none
  | .union act fs, i :: p, v =>
    match activate act fs i with
    | (act2, fs2) =>
      match fs2.get? i with
      | some c =>
        match writeCell c p v with
        | some c0 => some (.union act2 (fs2.set i c0))
        | none => none
      | none => none

/-- Ancestor walk of `Destroy` (§4.3): union ancestors strictly above the
target must be active; at the target's own union level, the target must be
the active member, and on success that level's active member becomes
`none` (§4.2 `destroyActive`). -/
def destroyGo : Cell → List Nat → Except AccessError Cell
  | .union act fs, [i] =>
    if act = some i then .ok (.union none fs) else .error .DestroyInactiveMember
  | .strct _, [_] => .error .InvalidPath
  | .arr _, [_] => .error .InvalidPath
  | .scalar _ _, _ => .error .InvalidPath
  | _, [] => .error .InvalidPath
  | .strct fs, i :: p =>
    match fs.get? i with
    | some c =>
      match destroyGo c p with
      | .ok c0 => .ok (.strct (fs.set i c0))
      | .error e => .error e
    | none => .error .InvalidPath
  | .arr es, i :: p =>
    match es.get? i with
    | some c =>
      match destroyGo c p with
      | .ok c0 => .ok (.arr (es.set i c0))
      | .error e => .error e
    | none => .error .InvalidPath
  | .union act fs, i :: p =>
    if act = some i then
      match fs.get? i with
      | some c =>
        match destroyGo c p with
        | .ok c0 => .ok (.union act (fs.set i c0))
        | .error e => .error e
      | none => .error .InvalidPath
    else .error (.InactiveMemberAccess i act)

/-- Modelled from the spec: §4.3 `Destroy` — reports `DestroyInactiveMember`
whenever the target is not the active member at its own union level,
regardless of ancestor activity; otherwise delegates to the ancestor walk. -/
def destroyCell (c : Cell) (p : List Nat) : Except AccessError Cell :=
  match p.getLast? with
  | none => .error .InvalidPath
  | some i =>
    match navigate c p.dropLast with
    | some (.union act _) =>
      if act = some i then destroyGo c p else .error .DestroyInactiveMember
    | some _ => destroyGo c p
    | none => .error .InvalidPath

/-- Modelled from the spec: §4.6 Lifetime Query Engine — a total boolean
probe walking the same ancestor chain as the Read check: `false` at the
first inactive-ancestor step or unwritten scalar leaf, `true` otherwise. -/
def isWithinLifetime : Cell → List Nat → Bool
  | .scalar w _, [] => w
  | _, [] => true
  | .scalar _ _, _ :: _ => false
  | .strct fs, i :: p =>
    match fs.get? i with
    | some c => isWithinLifetime c p
    | none => false
  | .arr es, i :: p =>
    match es.get? i with
    | some c => isWithinLifetime c p
    | none => false
  | .union act fs, i :: p =>
    if act = some i then
      match fs.get? i with
      | some c => isWithinLifetime c p
      | none => false
    else false

mutual

/-- Modelled from the spec: §4.1 `createRecord` — all cells start in the
"unspecified value, not yet written" state, all unions inactive. -/
def newCell : Ty → Cell
  | .int => .scalar false 0
  | .flt => .scalar false 0
  | .pad => .scalar false 0
  | .strct fs => .strct (newCells fs)
  | .union fs => .union none (newCells fs)
  | .arr es => .arr (newCells es)

def newCells : Tys → Cells
  | .nil => .nil
  | .cons t ts => .cons (newCell t) (newCells ts)

end

/-- Index of the first declared member that is not an unnamed-bitfield
placeholder, counting from `k`. -/
def firstNonPadFrom : Tys → Nat → Option Nat
  | .nil, _ => none
  | .cons .pad ts, k => firstNonPadFrom ts (k + 1)
  | .cons _ _, k => some k

/-- Index of the first declared member, skipping unnamed-bitfield
placeholders (§4.4 zero-initialization rule). -/
def firstNonPad (ts : Tys) : Option Nat := firstNonPadFrom ts 0

mutual

/-- Modelled from the spec: §4.4 zero-initialization — a union activates its
first declared member (skipping unnamed-bitfield placeholders) and
recursively zero-initializes it, leaving the other alternatives untouched;
every array element and every struct field is zero-initialized. -/
def zeroInit : Ty → Cell
  | .int => .scalar true 0
  | .flt => .scalar true 0
  | .pad => .scalar false 0
  | .strct fs => .strct (zeroInitCells fs)
  | .arr es => .arr (zeroInitCells es)
  | .union fs =>
    match firstNonPad fs with
    | some k => .union (some k) (zeroActivateAt fs k)
    | none => .union none (newCells fs)

def zeroInitCells : Tys → Cells
  | .nil => .nil
  | .cons t ts => .cons (zeroInit t) (zeroInitCells ts)

def zeroActivateAt : Tys → Nat → Cells
  | .nil, _ => .nil
  | .cons t ts, 0 => .cons (zeroInit t) (newCells ts)
  | .cons t ts, k + 1 => .cons (newCell t) (zeroActivateAt ts k)

end

/-- Member cells for a one-value brace-init: member `k` becomes a written
scalar holding the value, the others start unwritten. -/
def braceScalarAt : Tys → Nat → Int → Cells
  | .nil, _, _ => .nil
  | .cons _ ts, 0, v => .cons (.scalar true v) (newCells ts)
  | .cons t ts, k + 1, v => .cons (newCell t) (braceScalarAt ts k v)

/-- Modelled from the spec: §4.4 explicit brace-init of a union with a
single scalar value — activates the first declared member (skipping
unnamed-bitfield placeholders) and initializes it with the value. -/
def braceInit1 (fs : Tys) (v : Int) : Cell :=
  match firstNonPad fs with
  | some k => .union (some k) (braceScalarAt fs k v)
  | none => .union none (newCells fs)

/-- Modelled from the spec: §4.4 copy/move of a union value — the
destination's active member is set to match the source's (via `activate`,
with its cascading-deactivation side effects on the destination's prior
state), and for trivial members the storage content is transferred
bit-identically. -/
def copyUnionFrom (dst src : Cell) : Option Cell :=
  match dst, src with
  | .union dact dfs, .union sact sfs =>
    match sact with
    | some k =>
      match (activate dact dfs k).2.get? k, sfs.get? k with
      | some _, some sc => some (.union (some k) ((activate dact dfs k).2.set k sc))
      | _, _ => none
    | none =>
      some (.union none
        (match dact with
         | some j =>
           match dfs.get? j with
           | some cj => dfs.set j (deactivateNested cj)
           | none => dfs
         | none => dfs))
  | _, _ => none

/-- Sequential write helper: performs a list of (path, value) scalar writes
in order. -/
def writeSeq : Cell → List (List Nat × Int) → Option Cell
  | c, [] => some c
  | c, (p, v) :: rest =>
    match writeCell c p v with
    | some c0 => writeSeq c0 rest
    | none => none

mutual

/-- Size in bytes of a type (§4.5: offsets/sizes supplied by the type
system; both scalar types have size 4, a union is as large as its largest
member, struct and array storage is laid out consecutively). -/
def tySize : Ty → Nat
  | .int => 4
  | .flt => 4
  | .pad => 4
  | .strct fs => tysSize fs
  | .arr es => tysSize es
  | .union fs => tysMax fs

def tysSize : Tys → Nat
  | .nil => 0
  | .cons t ts => tySize t + tysSize ts

def tysMax : Tys → Nat
  | .nil => 0
  | .cons t ts => max (tySize t) (tysMax ts)

end

/-- Byte offset of field `i` within consecutively laid-out fields. -/
def offsetBefore : Tys → Nat → Option Nat
  | .nil, _ => none
  | .cons _ _, 0 => some 0
  | .cons t ts, k + 1 => (offsetBefore ts k).map (tySize t + ·)

/-- Child type at a field/element index. -/
def childTy : Ty → Nat → Option Ty
  | .int, _ => none
  | .flt, _ => none
  | .pad, _ => none
  | .strct fs, i => fs.get? i
  | .union fs, i => fs.get? i
  | .arr es, i => es.get? i

/-- Modelled from the spec: §4.5 static byte offset of a designator path,
computed purely from layout, never consulting activation state. -/
def offsetOf : Ty → List Nat → Option Nat
  | _, [] => some 0
  | .strct fs, i :: p =>
    match offsetBefore fs i, fs.get? i with
    | some o, some t => (offsetOf t p).map (o + ·)
    | _, _ => none
  | .arr es, i :: p =>
    match offsetBefore es i, es.get? i with
    | some o, some t => (offsetOf t p).map (o + ·)
    | _, _ => none
  | .union fs, i :: p =>
    match fs.get? i with
    | some t => offsetOf t p
    | none => none
  | _, _ :: _ => none

/-- The remainder path (below a union fork into two alternatives) stays
within the common initial run of identically-typed fields of the two
alternatives (§4.5, "common initial sequence"). -/
def runOk : Ty → Ty → List Nat → Bool
  | t1, t2, [] => t1 == t2
  | .strct f1, .strct f2, k :: r =>
    (f1.take (k + 1) == f2.take (k + 1)) &&
      (match f1.get? k, f2.get? k with
       | some a, some b => runOk a b r
       | _, _ => false)
  | .arr e1, .arr e2, k :: r =>
    (e1.take (k + 1) == e2.take (k + 1)) &&
      (match e1.get? k, e2.get? k with
       | some a, some b => runOk a b r
       | _, _ => false)
  | .union f1, .union f2, _ :: _ => f1 == f2
  | _, _, _ => false

/-- Equal-offset disambiguation of two designator paths: identical paths
are the same storage; paths forking at a union are provably equal only when
their remainders coincide and stay within the common initial run of
identically-typed fields of the two alternatives; anything else at equal
offsets is `NotConstantFoldable` (§4.5). -/
def addrEqAux : Ty → List Nat → List Nat → Except AccessError Bool
  | _, [], [] => .ok true
  | t, i :: p, j :: q =>
    if i = j then
      match childTy t i with
      | some t0 => addrEqAux t0 p q
      | none => .error .InvalidPath
    else
      match t with
      | .union fs =>
        match fs.get? i, fs.get? j with
        | some ti, some tj =>
          if p = q && runOk ti tj p then .ok true else .error .NotConstantFoldable
        | _, _ => .error .InvalidPath
      | _ => .error .NotConstantFoldable
  | _, _, _ => .error .NotConstantFoldable

/-- Modelled from the spec: §4.5 Pointer/Address Identity Resolver —
statically distinct offsets are provably distinct; statically equal offsets
are provably equal exactly within the common initial run of identically-
typed fields across union alternatives, and `NotConstantFoldable` past it.
Activation state is never consulted. -/
def addrCompare (t : Ty) (p q : List Nat) : Except AccessError Bool :=
  match offsetOf t p, offsetOf t q with
  | some o1, some o2 => if o1 = o2 then addrEqAux t p q else .ok false
  | _, _ => .error .InvalidPath

/-! Concrete scenario fixtures, mirroring the declarations in
`clang/test/AST/ByteCode/unions.cpp`. -/

/-- Field types of `union { int a; int b; }` (test line 6). -/
def tysII : Tys := tysOf [.int, .int]

/-- The type `union { int a; int b; }` itself. -/
def tyUII : Ty := .union tysII

/-- Scenario A object: `constexpr U a = {12};` (test line 11). -/
def cellScenarioA : Cell := braceInit1 tysII 12

/-- Nested-union type `union { union { int; int }; int }` for the cascade
scenario (test namespaces Nested / deactivateRecurses). -/
def tyNestDeep : Ty := .union (tysOf [.union tysII, .int])

/-- Scenario C type: `union { int a[5]; int b; }` (test line 286). -/
def tyZero5 : Ty := .union (tysOf [.arr (tysOf [.int, .int, .int, .int, .int]), .int])

/-- `union UnionWithUnnamedBitfield { int : 3; int n; }` (test line 298). -/
def tyBitfield : Ty := .union (tysOf [.pad, .int])

/-- `union { struct { float x, y; } a; int b; }` of SimpleActivate::foo3
(test line 116). -/
def tyFoo3 : Ty := .union (tysOf [.strct (tysOf [.flt, .flt]), .int])

/-- `struct A { int x; union { int p, q; }; }` of AnonymousUnion (test
line 491). -/
def tyAnonA : Ty := .strct (tysOf [.int, .union tysII])

/-- `B b = {.bb = 1};` for `union B { A a; int bb; }` (test line 501):
member 1 is active and holds 1, branch `a` is untouched storage. -/
def cellAnonB : Cell := .union (some 1) (cellsOf [newCell tyAnonA, .scalar true 1])

/-- `struct A : Base { ... }` flattened to its two ints (y from Base, x)
for UnionInBase::read_uninitialized (test line 380). -/
def tyBaseA : Ty := .strct (tysOf [.int, .int])

/-- `B b = {.b = 1};` for `union B { A a; int b; }` of UnionInBase. -/
def cellBaseB : Cell := .union (some 1) (cellsOf [newCell tyBaseA, .scalar true 1])

/-- `struct Short`: anonymous struct of two unsigned plus a data member
(test line 673). -/
def tyShort : Ty := .strct (tysOf [.strct (tysOf [.int, .int]), .int])

/-- `struct Long`: anonymous struct of one unsigned plus Size (test
line 666). -/
def tyLong : Ty := .strct (tysOf [.strct (tysOf [.int]), .int])

/-- `union Rep { Short S; Long L; }` (test line 681). -/
def tyRep : Ty := .union (tysOf [tyShort, tyLong])

/-- `union UU { struct { Rep R; int a; }; }` of AnonymousUnion::test
(test line 689). -/
def tyUU : Ty := .union (tysOf [.strct (tysOf [tyRep, .int])])

/-- The anonymous struct pair of AddressComparison::S (test line 726):
`struct{int a;int b;}` and `struct{int b;int a;}` share identically-typed
fields in different name order. -/
def tyAddrS : Ty := .strct (tysOf [.union (tysOf [.strct tysII, .strct tysII]), .int])

/-- `union { int a[2]; int b[2]; }` of AddressComparison (test line 745). -/
def tyAddrArr : Ty := .union (tysOf [.arr tysII, .arr tysII])

/-- A union whose two alternatives share no common initial run of
identically-typed fields (`struct{int;float}` vs `struct{float;int}`),
exercising the `NotConstantFoldable` branch of §4.5. -/
def tyNoFold : Ty := .union (tysOf [.strct (tysOf [.int, .flt]), .strct (tysOf [.flt, .int])])

/-- `union U { A a; }` with empty-struct member of InactiveTrivialDestroy /
ActiveDestroy (test lines 546, 561). -/
def tyTrivialU : Ty := .union (tysOf [.strct .nil])

/-- Leaf condition of the lifetime query (§4.6): the cell the path resolves
to exists and, when it is a scalar, has been written. -/
def leafOk (c : Cell) (p : List Nat) : Bool :=
  match navigate c p with
  | some (.scalar w _) => w
  | some _ => true
  | none => false

/-! Helper lemmas. -/

theorem get?_set_self : (cs : Cells) → (i : Nat) → (c x : Cell) →
    cs.get? i = some c → (cs.set i x).get? i = some x
  | .nil, i, c, x, h => by simp [Cells.get?] at h
  | .cons hd tl, 0, c, x, h => rfl
  | .cons hd tl, n + 1, c, x, h => get?_set_self tl n c x h

theorem get?_set_ne : (cs : Cells) → (i j : Nat) → (x : Cell) →
    i ≠ j → (cs.set i x).get? j = cs.get? j
  | .nil, _, _, _, _ => rfl
  | .cons hd tl, 0, 0, x, h => absurd rfl h
  | .cons hd tl, 0, j + 1, x, h => rfl
  | .cons hd tl, i + 1, 0, x, h => rfl
  | .cons hd tl, i + 1, j + 1, x, h =>
    get?_set_ne tl i j x (fun he => h (by rw [he]))

theorem activate_fst (act : Option Nat) (fs : Cells) (i : Nat) :
    (activate act fs i).1 = some i := by
  by_cases h : act = some i
  · simp [activate, h]
  · cases act with
    | none => simp [activate, h]
    | some j => simp [activate, h]

theorem activate_get?_self (act : Option Nat) (fs : Cells) (i : Nat) :
    (activate act fs i).2.get? i = fs.get? i := by
  by_cases h : act = some i
  · simp [activate, h]
  · cases act with
    | none => simp [activate, h]
    | some j =>
      have hji : j ≠ i := fun he => h (by rw [he])
      simp only [activate, if_neg h]
      cases hj : fs.get? j with
      | none => rfl
      | some cj => exact get?_set_ne fs j i (deactivateNested cj) hji

mutual

theorem allInactive_deactivateNested : (c : Cell) →
    allInactive (deactivateNested c) = true
  | .scalar w v => rfl
  | .strct fs => by
    simp [deactivateNested, allInactive, allInactiveList_deactivateNestedList fs]
  | .union act fs => by
    simp [deactivateNested, allInactive, Option.isNone,
      allInactiveList_deactivateNestedList fs]
  | .arr es => by
    simp [deactivateNested, allInactive, allInactiveList_deactivateNestedList es]

theorem allInactiveList_deactivateNestedList : (cs : Cells) →
    allInactiveList (deactivateNestedList cs) = true
  | .nil => rfl
  | .cons c cs => by
    simp [deactivateNestedList, allInactiveList, allInactive_deactivateNested c,
      allInactiveList_deactivateNestedList cs]

end

theorem write_read_aux : (p : List Nat) → (c : Cell) → (v : Int) →
    resolvesToScalar c p = true →
    ∃ c2, writeCell c p v = some c2 ∧ readCell c2 p = Except.ok v
  | [], .scalar w v0, v, h => ⟨.scalar true v, rfl, rfl⟩
  | [], .strct fs, v, h => by simp [resolvesToScalar] at h
  | [], .union a fs, v, h => by simp [resolvesToScalar] at h
  | [], .arr es, v, h => by simp [resolvesToScalar] at h
  | i :: p, .scalar w v0, v, h => by simp [resolvesToScalar, childOf] at h
  | i :: p, .strct fs, v, h => by
    simp only [resolvesToScalar, childOf] at h
    cases hg : fs.get? i with
    | none => rw [hg] at h; simp at h
    | some c0 =>
      rw [hg] at h
      obtain ⟨c2, hw, hr⟩ := write_read_aux p c0 v h
      refine ⟨.strct (fs.set i c2), ?_, ?_⟩
      · simp [writeCell, hg, hw]
      · simp [readCell, get?_set_self fs i c0 c2 hg, hr]
  | i :: p, .arr es, v, h => by
    simp only [resolvesToScalar, childOf] at h
    cases hg : es.get? i with
    | none => rw [hg] at h; simp at h
    | some c0 =>
      rw [hg] at h
      obtain ⟨c2, hw, hr⟩ := write_read_aux p c0 v h
      refine ⟨.arr (es.set i c2), ?_, ?_⟩
      · simp [writeCell, hg, hw]
      · simp [readCell, get?_set_self es i c0 c2 hg, hr]
  | i :: p, .union act fs, v, h => by
    simp only [resolvesToScalar, childOf] at h
    cases hg : fs.get? i with
    | none => rw [hg] at h; simp at h
    | some c0 =>
      rw [hg] at h
      obtain ⟨c2, hw, hr⟩ := write_read_aux p c0 v h
      have hget : (activate act fs i).2.get? i = some c0 := by
        rw [activate_get?_self act fs i, hg]
      refine ⟨.union (activate act fs i).1 ((activate act fs i).2.set i c2), ?_, ?_⟩
      · simp only [writeCell]
        rw [hget]
        simp [hw]
      · rw [activate_fst act fs i]
        simp [readCell, get?_set_self (activate act fs i).2 i c0 c2 hget, hr]

theorem lifetime_iff_aux : (p : List Nat) → (c : Cell) →
    (isWithinLifetime c p = true ↔ (callCheck c p = .ok () ∧ leafOk c p = true))
  | [], .scalar w v => by simp [isWithinLifetime, callCheck, leafOk, navigate]
  | [], .strct fs => by simp [isWithinLifetime, callCheck, leafOk, navigate]
  | [], .union a fs => by simp [isWithinLifetime, callCheck, leafOk, navigate]
  | [], .arr es => by simp [isWithinLifetime, callCheck, leafOk, navigate]
  | i :: p, .scalar w v => by
    simp [isWithinLifetime, callCheck, leafOk, navigate, childOf]
  | i :: p, .strct fs => by
    cases hg : fs.get? i with
    | none => simp [isWithinLifetime, callCheck, leafOk, navigate, childOf, hg]
    | some c0 =>
      simpa [isWithinLifetime, callCheck, leafOk, navigate, childOf, hg] using
        lifetime_iff_aux p c0
  | i :: p, .arr es => by
    cases hg : es.get? i with
    | none => simp [isWithinLifetime, callCheck, leafOk, navigate, childOf, hg]
    | some c0 =>
      simpa [isWithinLifetime, callCheck, leafOk, navigate, childOf, hg] using
        lifetime_iff_aux p c0
  | i :: p, .union act fs => by
    by_cases ha : act = some i
    · cases hg : fs.get? i with
      | none => simp [isWithinLifetime, callCheck, leafOk, navigate, childOf, hg, ha]
      | some c0 =>
        simpa [isWithinLifetime, callCheck, leafOk, navigate, childOf, hg, ha] using
          lifetime_iff_aux p c0
    · simp [isWithinLifetime, callCheck, leafOk, navigate, childOf, ha]

theorem zeroActivateAt_get?_self : (fs : Tys) → (k : Nat) → (t : Ty) →
    Tys.get? fs k = some t →
    Cells.get? (zeroActivateAt fs k) k = some (zeroInit t)
  | .nil, k, t, h => by simp [Tys.get?] at h
  | .cons t0 ts, 0, t, h => by
    have : t0 = t := by simpa [Tys.get?] using h
    simp [zeroActivateAt, Cells.get?, this]
  | .cons t0 ts, k + 1, t, h => zeroActivateAt_get?_self ts k t h

theorem zeroInitCells_get? : (ts : Tys) → (i : Nat) → (t : Ty) →
    Tys.get? ts i = some t →
    Cells.get? (zeroInitCells ts) i = some (zeroInit t)
  | .nil, i, t, h => by simp [Tys.get?] at h
  | .cons t0 ts, 0, t, h => by
    have : t0 = t := by simpa [Tys.get?] using h
    simp [zeroInitCells, Cells.get?, this]
  | .cons t0 ts, i + 1, t, h => zeroInitCells_get? ts i t h

theorem read_ok_aux : (p : List Nat) → (c : Cell) → resolvesToScalar c p = true →
    ((∃ v, readCell c p = .ok v) ↔ (callCheck c p = .ok () ∧ leafOk c p = true))
  | [], .scalar w v, _ => by
    cases w <;> simp [readCell, callCheck, leafOk, navigate]
  | [], .strct fs, h => by simp [resolvesToScalar] at h
  | [], .union a fs, h => by simp [resolvesToScalar] at h
  | [], .arr es, h => by simp [resolvesToScalar] at h
  | i :: p, .scalar w v, h => by simp [resolvesToScalar, childOf] at h
  | i :: p, .strct fs, h => by
    simp only [resolvesToScalar, childOf] at h
    cases hg : fs.get? i with
    | none => rw [hg] at h; simp at h
    | some c0 =>
      rw [hg] at h
      simpa [readCell, callCheck, leafOk, navigate, childOf, hg] using
        read_ok_aux p c0 h
  | i :: p, .arr es, h => by
    simp only [resolvesToScalar, childOf] at h
    cases hg : es.get? i with
    | none => rw [hg] at h; simp at h
    | some c0 =>
      rw [hg] at h
      simpa [readCell, callCheck, leafOk, navigate, childOf, hg] using
        read_ok_aux p c0 h
  | i :: p, .union act fs, h => by
    simp only [resolvesToScalar, childOf] at h
    cases hg : fs.get? i with
    | none => rw [hg] at h; simp at h
    | some c0 =>
      rw [hg] at h
      by_cases ha : act = some i
      · simpa [readCell, callCheck, leafOk, navigate, childOf, hg, ha] using
          read_ok_aux p c0 h
      · simp [readCell, callCheck, leafOk, navigate, childOf, ha]

/-! Claim theorems. -/

/-- C1: for every resolved Read/Call path, the validator checks each union
ancestor step outermost-to-innermost and requires the step field to be that
ancestor's active member; the first failing step reports
`InactiveMemberAccess` naming the requested field and the actually-active
one (or `none` when the ancestor has no active member), while a read of the
active member of `union{int a;int b;}` initialized `{12}` yields 12 and a
read of the other member fails with active member `a`. -/
theorem read_call_checks_union_ancestors_outermost_first :
    (∀ (act : Option Nat) (fs : Cells) (i : Nat) (p : List Nat), act ≠ some i →
      readCell (Cell.union act fs) (i :: p) = .error (.InactiveMemberAccess i act) ∧
      callCheck (Cell.union act fs) (i :: p) = .error (.InactiveMemberAccess i act)) ∧
    (∀ (fs : Cells) (i : Nat) (p : List Nat) (c : Cell), Cells.get? fs i = some c →
      readCell (Cell.union (some i) fs) (i :: p) = readCell c p ∧
      callCheck (Cell.union (some i) fs) (i :: p) = callCheck c p) ∧
    readCell cellScenarioA [0] = .ok 12 ∧
    readCell cellScenarioA [1] = .error (.InactiveMemberAccess 1 (some 0)) ∧
    (writeCell cellAnonB [0, 0] 2).map (fun c => readCell c [0, 1, 0]) =
      some (.error (.InactiveMemberAccess 0 none)) := by
  refine ⟨?_, ?_, rfl, rfl, rfl⟩
  · intro act fs i p h
    exact ⟨by simp [readCell, h], by simp [callCheck, h]⟩
  · intro fs i p c h
    exact ⟨by simp [readCell, h], by simp [callCheck, h]⟩

/-- Witness for C1 at a concrete input: a union with no active member
rejects a read of member 0 naming active member "none". -/
theorem read_call_checks_union_ancestors_outermost_first_witness :
    readCell (Cell.union none Cells.nil) [0] = .error (.InactiveMemberAccess 0 none) :=
  (read_call_checks_union_ancestors_outermost_first.1 none .nil 0 [] (by decide)).1

/-- C2: a write to a trivial-scalar member always succeeds, activating every
union ancestor along the path before storing, so the last-written member is
the sole active one; after `Z.a=10; Z.b=20` on `union{int a;int b;}`,
reading `a` fails `InactiveMemberAccess` with active member `b` and reading
`b` yields 20. -/
theorem write_trivial_scalar_always_succeeds_and_activates :
    (∀ (p : List Nat) (c : Cell) (v : Int), resolvesToScalar c p = true →
      ∃ c2, writeCell c p v = some c2 ∧ readCell c2 p = .ok v) ∧
    (writeSeq (newCell tyUII) [([0], 10), ([1], 20)]).map (fun c => readCell c [0]) =
      some (.error (.InactiveMemberAccess 0 (some 1))) ∧
    (writeSeq (newCell tyUII) [([0], 10), ([1], 20)]).map (fun c => readCell c [1]) =
      some (.ok 20) :=
  ⟨write_read_aux, rfl, rfl⟩

/-- Witness for C2 at a concrete input: writing 5 into a bare unwritten
scalar succeeds and reads back 5. -/
theorem write_trivial_scalar_always_succeeds_and_activates_witness :
    ∃ c2, writeCell (Cell.scalar false 0) [] 5 = some c2 ∧ readCell c2 [] = .ok 5 :=
  write_trivial_scalar_always_succeeds_and_activates.1 [] (.scalar false 0) 5 rfl

/-- C3: activating a union member supersedes the previously active branch
and clears the active member of every union nested transitively inside it,
recursively at every depth; concretely, after activating a member two
union-levels deep and then a sibling at the outer level, the inner union is
left with no active member and its path is out of lifetime. -/
theorem activation_cascades_deactivation_recursively :
    (∀ (fs : Cells) (i j : Nat) (cj : Cell), j ≠ i → Cells.get? fs j = some cj →
      activate (some j) fs i = (some i, fs.set j (deactivateNested cj)) ∧
      allInactive (deactivateNested cj) = true) ∧
    (writeSeq (newCell tyNestDeep) [([0, 0], 5), ([1], 7)]).map (fun c => navigate c [0]) =
      some (some (Cell.union none (cellsOf [.scalar true 5, .scalar false 0]))) ∧
    (writeSeq (newCell tyNestDeep) [([0, 0], 5), ([1], 7)]).map
        (fun c => isWithinLifetime c [0, 0]) = some false := by
  refine ⟨?_, rfl, rfl⟩
  intro fs i j cj hji hj
  have hne : (some j : Option Nat) ≠ some i := by simpa using hji
  exact ⟨by simp [activate, hne, hj], allInactive_deactivateNested cj⟩

/-- Witness for C3 at a concrete input: activating member 0 while member 1
is active cascades deactivation into the superseded branch. -/
theorem activation_cascades_deactivation_recursively_witness :
    activate (some 1) (cellsOf [Cell.scalar false 0, Cell.union (some 0) .nil]) 0 =
      (some 0, (cellsOf [Cell.scalar false 0, Cell.union (some 0) .nil]).set 1
        (deactivateNested (Cell.union (some 0) .nil))) ∧
    allInactive (deactivateNested (Cell.union (some 0) .nil)) = true :=
  activation_cascades_deactivation_recursively.1
    (cellsOf [Cell.scalar false 0, Cell.union (some 0) .nil]) 0 1
    (Cell.union (some 0) .nil) (by decide) rfl

/-- C4: zero-initialization of a union activates the first declared member
(in declaration order, skipping unnamed-bitfield placeholders) and
recursively zero-initializes it, with every element zero-initialized for an
array member: for `union{int a[5]; int b;}`, `a[0]` and `a[4]` read 0 while
`b` fails `InactiveMemberAccess` with active member `a`; with a leading
unnamed bitfield, the first named member is activated and reads 0. -/
theorem zero_init_activates_first_named_member :
    (∀ (fs : Tys) (k : Nat), firstNonPad fs = some k →
      activeOf (zeroInit (.union fs)) = some k) ∧
    (∀ (fs : Tys) (k : Nat) (t : Ty), firstNonPad fs = some k → Tys.get? fs k = some t →
      childOf (zeroInit (.union fs)) k = some (zeroInit t)) ∧
    (∀ (ts : Tys) (i : Nat) (t : Ty), Tys.get? ts i = some t →
      Cells.get? (zeroInitCells ts) i = some (zeroInit t)) ∧
    readCell (zeroInit tyZero5) [0, 0] = .ok 0 ∧
    readCell (zeroInit tyZero5) [0, 4] = .ok 0 ∧
    readCell (zeroInit tyZero5) [1] = .error (.InactiveMemberAccess 1 (some 0)) ∧
    activeOf (zeroInit tyBitfield) = some 1 ∧
    readCell (zeroInit tyBitfield) [1] = .ok 0 := by
  refine ⟨?_, ?_, zeroInitCells_get?, rfl, rfl, rfl, rfl, rfl⟩
  · intro fs k h
    simp [zeroInit, h, activeOf]
  · intro fs k t h ht
    simp only [zeroInit, h, childOf]
    exact zeroActivateAt_get?_self fs k t ht

/-- Witness for C4 at a concrete input: zero-initializing
`union{int a;int b;}` activates member 0. -/
theorem zero_init_activates_first_named_member_witness :
    activeOf (zeroInit (.union tysII)) = some 0 :=
  zero_init_activates_first_named_member.1 tysII 0 rfl

/-- C5: copying (or copy-assigning) a union value into a destination of the
same union type makes the destination's active member equal the source's,
transfers a bit-identical value for trivial members, and makes a read of any
other member fail `InactiveMemberAccess` — superseding whatever member was
previously active in the destination. -/
theorem copy_roundtrip_matches_source_active_member :
    (∀ (dact : Option Nat) (dfs sfs : Cells) (k : Nat) (sc dc : Cell),
      Cells.get? sfs k = some sc → Cells.get? dfs k = some dc →
      ∃ c2, copyUnionFrom (.union dact dfs) (.union (some k) sfs) = some c2 ∧
        activeOf c2 = some k ∧
        (∀ rest, readCell c2 (k :: rest) = readCell (.union (some k) sfs) (k :: rest)) ∧
        (∀ (j : Nat) rest, j ≠ k →
          readCell c2 (j :: rest) = .error (.InactiveMemberAccess j (some k)))) ∧
    ((writeCell (braceInit1 tysII 13) [1] 32).bind
        (fun b2 => copyUnionFrom b2 (braceInit1 tysII 12))).map (fun c => readCell c [0]) =
      some (.ok 12) ∧
    ((writeCell (braceInit1 tysII 13) [1] 32).bind
        (fun b2 => copyUnionFrom b2 (braceInit1 tysII 12))).map (fun c => readCell c [1]) =
      some (.error (.InactiveMemberAccess 1 (some 0))) := by
  refine ⟨?_, rfl, rfl⟩
  intro dact dfs sfs k sc dc hsk hdk
  have hget : (activate dact dfs k).2.get? k = some dc := by
    rw [activate_get?_self]; exact hdk
  refine ⟨.union (some k) ((activate dact dfs k).2.set k sc), ?_, rfl, ?_, ?_⟩
  · simp [copyUnionFrom, hget, hsk]
  · intro rest
    simp [readCell, get?_set_self _ k dc sc hget, hsk]
  · intro j rest hjk
    have hne : (some k : Option Nat) ≠ some j := by
      simpa using fun he => hjk he.symm
    simp [readCell, hne]

/-- Witness for C5 at a concrete input: copying a one-member union with
active member 0 into a fresh destination. -/
theorem copy_roundtrip_matches_source_active_member_witness :
    ∃ c2, copyUnionFrom (.union none (cellsOf [.scalar false 0]))
        (.union (some 0) (cellsOf [.scalar true 7])) = some c2 ∧
      activeOf c2 = some 0 ∧
      (∀ rest, readCell c2 (0 :: rest) =
        readCell (.union (some 0) (cellsOf [.scalar true 7])) (0 :: rest)) ∧
      (∀ (j : Nat) rest, j ≠ 0 →
        readCell c2 (j :: rest) = .error (.InactiveMemberAccess j (some 0))) :=
  copy_roundtrip_matches_source_active_member.1 none (cellsOf [.scalar false 0])
    (cellsOf [.scalar true 7]) 0 (.scalar true 7) (.scalar false 0) rfl rfl

/-- C6: address identity of two designator paths is decided purely from
static layout, never consulting activation state: any two members of the
same union (equal offsets, identical type) compare equal, while an
equal-offset comparison that forks at a union and reaches past the common
initial run of identically-typed fields of the two alternatives reports
`NotConstantFoldable` instead of asserting true or false. -/
theorem address_identity_is_static :
    (∀ (fs : Tys) (i j : Nat) (ti tj : Ty), Tys.get? fs i = some ti →
      Tys.get? fs j = some tj → ti = tj →
      addrCompare (.union fs) [i] [j] = .ok true) ∧
    (∀ (fs : Tys) (i j : Nat) (p q : List Nat) (ti tj : Ty) (o : Nat), i ≠ j →
      Tys.get? fs i = some ti → Tys.get? fs j = some tj →
      offsetOf (.union fs) (i :: p) = some o → offsetOf (.union fs) (j :: q) = some o →
      ¬(p = q ∧ runOk ti tj p = true) →
      addrCompare (.union fs) (i :: p) (j :: q) = .error .NotConstantFoldable) ∧
    addrCompare tyUII [0] [1] = .ok true ∧
    addrCompare tyAddrS [0, 0, 0] [0, 1, 0] = .ok true ∧
    addrCompare tyAddrS [0, 0, 1] [0, 1, 0] = .ok false ∧
    addrCompare tyAddrArr [0, 0] [1, 0] = .ok true ∧
    addrCompare tyAddrArr [0, 0] [1, 1] = .ok false ∧
    addrCompare tyNoFold [0, 1] [1, 1] = .error .NotConstantFoldable := by
  refine ⟨?_, ?_, rfl, rfl, rfl, rfl, rfl, rfl⟩
  · intro fs i j ti tj hi hj hij
    by_cases he : i = j
    · subst he
      have : ti = tj := by rw [hi] at hj; exact (Option.some.inj hj)
      subst this
      simp [addrCompare, offsetOf, hi, addrEqAux, childTy]
    · subst hij
      simp [addrCompare, offsetOf, hi, hj, addrEqAux, he, childTy, runOk]
  · intro fs i j p q ti tj o hij hi hj hop hoq hnot
    have hcond : (decide (p = q) && runOk ti tj p) = false := by
      by_cases hpq : p = q
      · have hr : runOk ti tj p = false := by
          cases hrr : runOk ti tj p
          · rfl
          · exact absurd ⟨hpq, hrr⟩ hnot
        subst hpq
        simp [hr]
      · simp [hpq]
    simp [addrCompare, hop, hoq, addrEqAux, hij, hi, hj, hcond]

/-- Witness for C6 at a concrete input: the two int members of
`union{int a;int b;}` have provably equal addresses. -/
theorem address_identity_is_static_witness :
    addrCompare (.union tysII) [0] [1] = .ok true :=
  address_identity_is_static.1 tysII 0 1 .int .int rfl rfl rfl

/-- C7: destroying a union member that is not the active member at its own
union level fails `DestroyInactiveMember` (not silently ignored, even for
trivially-destructible members); destroying the active member succeeds and
leaves the union with no active member. -/
theorem destroy_requires_active_member :
    (∀ (act : Option Nat) (fs : Cells) (i : Nat), act ≠ some i →
      destroyCell (.union act fs) [i] = .error .DestroyInactiveMember) ∧
    (∀ (fs : Cells) (i : Nat),
      destroyCell (.union (some i) fs) [i] = .ok (.union none fs) ∧
      activeOf (Cell.union none fs) = none) ∧
    destroyCell (newCell tyTrivialU) [0] = .error .DestroyInactiveMember ∧
    destroyCell (zeroInit tyTrivialU) [0] = .ok (.union none (cellsOf [.strct .nil])) ∧
    Except.map activeOf (destroyCell (zeroInit tyTrivialU) [0]) = .ok none := by
  refine ⟨?_, ?_, rfl, rfl, rfl⟩
  · intro act fs i h
    have e : destroyCell (.union act fs) [i] =
        if act = some i then destroyGo (.union act fs) [i]
        else .error .DestroyInactiveMember := rfl
    rw [e, if_neg h]
  · intro fs i
    have e : destroyCell (.union (some i) fs) [i] =
        if (some i : Option Nat) = some i then destroyGo (.union (some i) fs) [i]
        else .error .DestroyInactiveMember := rfl
    have e2 : destroyGo (.union (some i) fs) [i] =
        if (some i : Option Nat) = some i then .ok (.union none fs)
        else .error .DestroyInactiveMember := rfl
    rw [e, if_pos rfl, e2, if_pos rfl]
    exact ⟨rfl, rfl⟩

/-- Witness for C7 at a concrete input: destroying the sole member of a
union with no active member is rejected. -/
theorem destroy_requires_active_member_witness :
    destroyCell (Cell.union none Cells.nil) [0] = .error .DestroyInactiveMember :=
  destroy_requires_active_member.1 none .nil 0 (by decide)

/-- C8: when every union-ancestor check passes but the innermost cell was
never written since its branch became active, a read reports
`UninitializedRead`, an error distinct from `InactiveMemberAccess`: writing
`Z.a.y` activates member `a`, and reading the never-written sibling `Z.a.x`
fails as an uninitialized read, not as an inactive-member access. -/
theorem uninitialized_read_is_distinct_error :
    (∀ (v : Int), readCell (Cell.scalar false v) [] = .error .UninitializedRead) ∧
    (∀ (fs : Cells) (i : Nat) (p : List Nat) (c : Cell), Cells.get? fs i = some c →
      readCell c p = .error .UninitializedRead →
      readCell (Cell.union (some i) fs) (i :: p) = .error .UninitializedRead) ∧
    (∀ (fs : Cells) (i : Nat) (p : List Nat) (c : Cell), Cells.get? fs i = some c →
      readCell c p = .error .UninitializedRead →
      readCell (Cell.strct fs) (i :: p) = .error .UninitializedRead) ∧
    (∀ (r : Nat) (a : Option Nat),
      AccessError.UninitializedRead ≠ AccessError.InactiveMemberAccess r a) ∧
    (writeCell (newCell tyFoo3) [0, 1] 10).map (fun c => readCell c [0, 0]) =
      some (.error .UninitializedRead) ∧
    (writeCell cellBaseB [0, 1] 1).map (fun c => readCell c [0, 0]) =
      some (.error .UninitializedRead) := by
  refine ⟨fun v => rfl, ?_, ?_, ?_, rfl, rfl⟩
  · intro fs i p c hg hr
    simp [readCell, hg, hr]
  · intro fs i p c hg hr
    simp [readCell, hg, hr]
  · intro r a h
    exact AccessError.noConfusion h

/-- Witness for C8 at a concrete input: reading the active but unwritten
member of a union reports `UninitializedRead`. -/
theorem uninitialized_read_is_distinct_error_witness :
    readCell (Cell.union (some 0) (cellsOf [Cell.scalar false 0])) [0] =
      .error .UninitializedRead :=
  uninitialized_read_is_distinct_error.2.1 (cellsOf [Cell.scalar false 0]) 0 []
    (Cell.scalar false 0) rfl rfl

/-- C9: the lifetime query is a total boolean probe that never fails: it is
`true` exactly when every union ancestor along the path is active and the
leaf cell exists and (for a scalar) has been written, `false` at the first
inactive-ancestor step or uninitialized-leaf condition; on scalar-resolving
paths it is `true` exactly when the (failing) Read validator succeeds. -/
theorem lifetime_query_never_fails :
    (∀ (c : Cell) (p : List Nat),
      isWithinLifetime c p = true ↔ (callCheck c p = .ok () ∧ leafOk c p = true)) ∧
    (∀ (c : Cell) (p : List Nat), callCheck c p ≠ .ok () →
      isWithinLifetime c p = false) ∧
    (∀ (c : Cell) (p : List Nat), resolvesToScalar c p = true →
      (isWithinLifetime c p = true ↔ ∃ v, readCell c p = .ok v)) ∧
    isWithinLifetime cellScenarioA [0] = true ∧
    isWithinLifetime cellScenarioA [1] = false ∧
    isWithinLifetime (newCell tyUII) [0] = false := by
  refine ⟨fun c p => lifetime_iff_aux p c, ?_, ?_, rfl, rfl, rfl⟩
  · intro c p h
    cases hl : isWithinLifetime c p with
    | false => rfl
    | true => exact absurd ((lifetime_iff_aux p c).mp hl).1 h
  · intro c p h
    exact (lifetime_iff_aux p c).trans (read_ok_aux p c h).symm

/-- Witness for C9 at a concrete input: a failing ancestor check makes the
probe return `false` instead of failing. -/
theorem lifetime_query_never_fails_witness :
    isWithinLifetime (Cell.union none Cells.nil) [0] = false :=
  lifetime_query_never_fails.2.1 (Cell.union none .nil) [0]
    (fun h => Except.noConfusion h)

/-- C10: writing one field of a struct (including the anonymous struct that
is a union's member) leaves the activation and initialization state of the
struct's sibling subtrees unchanged; concretely, after activating `U.R.S`
by writing `U.R.S.Size` and then writing the sibling field `U.a`, the
paths `U`, `U.R`, `U.R.S`, `U.R.S.Size` (and `U.a`) all remain within
lifetime. -/
theorem struct_field_write_frames_siblings :
    (∀ (fs : Cells) (i : Nat) (p : List Nat) (v : Int) (c2 : Cell),
      writeCell (Cell.strct fs) (i :: p) v = some c2 →
      ∀ j, j ≠ i → childOf c2 j = childOf (Cell.strct fs) j) ∧
    (∀ (fs : Cells) (i : Nat) (p : List Nat) (v : Int) (c2 : Cell),
      writeCell (Cell.union (some i) fs) (i :: p) v = some c2 →
      activeOf c2 = some i ∧
      ∀ j, j ≠ i → childOf c2 j = childOf (Cell.union (some i) fs) j) ∧
    (writeSeq (newCell tyUU) [([0, 0, 0, 0, 1], 10), ([0, 1], 10)]).map
        (fun c => (isWithinLifetime c [], isWithinLifetime c [0, 0],
          isWithinLifetime c [0, 0, 0], isWithinLifetime c [0, 0, 0, 0, 1],
          isWithinLifetime c [0, 1])) =
      some (true, true, true, true, true) := by
  refine ⟨?_, ?_, rfl⟩
  · intro fs i p v c2 h j hj
    simp only [writeCell] at h
    cases hg : fs.get? i with
    | none => rw [hg] at h; simp at h
    | some c0 =>
      rw [hg] at h
      simp only [] at h
      cases hw : writeCell c0 p v with
      | none => rw [hw] at h; simp at h
      | some c1 =>
        rw [hw] at h
        simp only [Option.some.injEq] at h
        rw [← h]
        simpa [childOf] using get?_set_ne fs i j c1 (fun he => hj he.symm)
  · intro fs i p v c2 h
    have ha : activate (some i) fs i = (some i, fs) := by simp [activate]
    simp only [writeCell, ha] at h
    cases hg : fs.get? i with
    | none => rw [hg] at h; simp at h
    | some c0 =>
      rw [hg] at h
      simp only [] at h
      cases hw : writeCell c0 p v with
      | none => rw [hw] at h; simp at h
      | some c1 =>
        rw [hw] at h
        simp only [Option.some.injEq] at h
        rw [← h]
        refine ⟨rfl, fun j hj => ?_⟩
        simpa [childOf] using get?_set_ne fs i j c1 (fun he => hj he.symm)

/-- Witness for C10 at a concrete input: writing field 0 of a two-field
struct leaves field 1 unchanged. -/
theorem struct_field_write_frames_siblings_witness :
    childOf (Cell.strct (cellsOf [Cell.scalar true 3, Cell.scalar false 0])) 1 =
      childOf (Cell.strct (cellsOf [Cell.scalar false 0, Cell.scalar false 0])) 1 :=
  struct_field_write_frames_siblings.1
    (cellsOf [Cell.scalar false 0, Cell.scalar false 0]) 0 [] 3
    (Cell.strct (cellsOf [Cell.scalar true 3, Cell.scalar false 0])) rfl 1 (by decide)

end UnionModel
